import Mathlib

set_option allowUnsafeReducibility true

attribute [semireducible] Rat.ofScientific Rat.mul Rat.inv Rat.add Rat.sub Rat.div

/-!
Verification of the BuildBurn CI/CD cost attribution engine.

The Go sources are shallowly embedded:
* real-valued quantities (float64 in Go) are modelled as exact rationals `ℚ`;
* `time.Duration` values and `time.Time` instants are integer nanosecond
  counts (`ℤ`), as in Go's int64-based representation; `t2.Sub(t1)` is `t2 - t1`;
* Go's `map[string]float64` with `m[k] += v` accumulation is modelled as an
  association list in key-insertion order (`GoMap`), which captures the map's
  contents; Go's randomized map iteration order is modelled by an explicit
  iteration-order parameter where a function ranges over a map.
-/

/-- Character-list infix test: Go `strings.Contains` on the underlying rune
sequences (`strings.Contains s ""` is true, as here for the empty needle). -/
def charsHasInfix : List Char → List Char → Bool
  | [], sub => sub.isEmpty
  | c :: t, sub => sub.isPrefixOf (c :: t) || charsHasInfix t sub

/-- Go `strings.Contains s sub`. -/
def strContains (s sub : String) : Bool :=
  charsHasInfix s.toList sub.toList

/-- Go `strings.ToLower` (for the ASCII label/step-name alphabet involved
here): lowercase each character. Identical to `String.toLower`, but mapping
over the character list so that the kernel can evaluate it. -/
def strToLower (s : String) : String :=
  String.mk (s.data.map Char.toLower)

/-- Go `time.Duration` (int64 nanoseconds). -/
abbrev GoDuration := ℤ

/-- Go `Duration.Seconds()`: the duration as a (real, here rational) number of seconds. -/
def GoDuration.seconds (d : GoDuration) : ℚ := (d : ℚ) / 1000000000

/-- Go `Duration.Minutes()`: the duration as a number of minutes. -/
def GoDuration.minutes (d : GoDuration) : ℚ := (d : ℚ) / 60000000000

/-- Go `map[string]float64`, as an association list in key-insertion order. -/
abbrev GoMap := List (String × ℚ)

/-- Go map read `m[k]` (zero for an absent key). -/
def GoMap.get (m : GoMap) (k : String) : ℚ :=
  match m with
  | [] => 0
  | (k', v) :: rest => if k' = k then v else GoMap.get rest k

/-- Go accumulation `m[k] += v`: update the existing entry or append a new one. -/
def GoMap.addTo (m : GoMap) (k : String) (v : ℚ) : GoMap :=
  match m with
  | [] => [(k, v)]
  | (k', v') :: rest =>
      if k' = k then (k', v' + v) :: rest else (k', v') :: GoMap.addTo rest k v

/-- The keys present in the map. -/
def GoMap.keys (m : GoMap) : List String := m.map (fun p => p.1)

/-- The sum of all values stored in the map. -/
def GoMap.valuesSum (m : GoMap) : ℚ := (m.map (fun p => p.2)).sum

theorem GoMap.keys_addTo (m : GoMap) (k : String) (v : ℚ) :
    GoMap.keys (GoMap.addTo m k v) = if k ∈ GoMap.keys m then GoMap.keys m else GoMap.keys m ++ [k] := by
  induction m with
  | nil => simp [GoMap.addTo, GoMap.keys]
  | cons p rest ih =>
    obtain ⟨k', v'⟩ := p
    by_cases h : k' = k
    · subst h
      simp [GoMap.addTo, GoMap.keys]
    · simp only [GoMap.addTo, if_neg h, GoMap.keys, List.map_cons] at *
      rw [ih]
      have hne : ¬ k = k' := fun hc => h hc.symm
      by_cases hm : k ∈ List.map (fun p => p.1) rest
      · simp [List.mem_cons, hne, hm]
      · simp [List.mem_cons, hne, hm]

theorem GoMap.mem_keys_addTo_self (m : GoMap) (k : String) (v : ℚ) :
    k ∈ GoMap.keys (GoMap.addTo m k v) := by
  rw [GoMap.keys_addTo]
  by_cases hm : k ∈ GoMap.keys m
  · simp [hm]
  · simp [hm]

theorem GoMap.mem_keys_addTo_of_mem (m : GoMap) (k k' : String) (v : ℚ)
    (h : k' ∈ GoMap.keys m) : k' ∈ GoMap.keys (GoMap.addTo m k v) := by
  rw [GoMap.keys_addTo]
  by_cases hm : k ∈ GoMap.keys m
  · simpa [hm]
  · simp [hm, h]

theorem GoMap.valuesSum_addTo (m : GoMap) (k : String) (v : ℚ) :
    GoMap.valuesSum (GoMap.addTo m k v) = GoMap.valuesSum m + v := by
  induction m with
  | nil => simp [GoMap.addTo, GoMap.valuesSum]
  | cons p rest ih =>
    obtain ⟨k', v'⟩ := p
    by_cases h : k' = k
    · subst h
      simp [GoMap.addTo, GoMap.valuesSum]
      ring
    · simp only [GoMap.addTo, if_neg h, GoMap.valuesSum, List.map_cons, List.sum_cons] at *
      rw [ih]
      ring

/-- `RunnerRate` (narrative engine file, package `main`): scan the labels in
order; the first label whose lowercased text contains "macos" gives the macOS
rate, "windows" the Windows rate; with no matching label the Linux rate. -/
def RunnerRate : List String → ℚ
  | [] => 0.008
  | l :: rest =>
    let low := strToLower l
    if strContains low "macos" then 0.08
    else if strContains low "windows" then 0.016
    else RunnerRate rest

/-- Models the `fmt` verb `%.0f` as used in report strings (decimal rendering
of a rational; the exact rounding mode is immaterial to every claim below). -/
def fmtF0 (q : ℚ) : String := toString (round q)

/-- Models the `fmt` verb `%.1f` as used in report strings. -/
def fmtF1 (q : ℚ) : String :=
  let t := round (q * 10)
  toString (t / 10) ++ "." ++ toString ((t % 10).natAbs)

/-- Models the `fmt` verb `%.2f` as used in report strings. -/
def fmtF2 (q : ℚ) : String :=
  let t := round (q * 100)
  let r := (t % 100).natAbs
  toString (t / 100) ++ "." ++ (if r < 10 then "0" else "") ++ toString r

namespace CostEngine

/-! Embedding of the standalone cost engine file (the one defining
`WorkflowAnalysis`, `StepCostEntry`, the map-based `CostReport` and
`CalculateCost`). -/

/-- GitHub Actions per-minute pricing: `RateLinux`. -/
def RateLinux : ℚ := 0.008

/-- GitHub Actions per-minute pricing: `RateWindows`. -/
def RateWindows : ℚ := 0.016

/-- GitHub Actions per-minute pricing: `RateMacOS`. -/
def RateMacOS : ℚ := 0.08

/-- `StepAnalysis` holds a single step's duration. -/
structure StepAnalysis where
  Name : String
  Duration : GoDuration
deriving DecidableEq

/-- `JobAnalysis` holds a single job's duration and metadata. -/
structure JobAnalysis where
  Name : String
  Duration : GoDuration
  Labels : List String
  Steps : List StepAnalysis
deriving DecidableEq

/-- `WorkflowAnalysis` represents analyzed workflow run data. -/
structure WorkflowAnalysis where
  Name : String
  Jobs : List JobAnalysis
deriving DecidableEq

/-- `StepCostEntry` represents the cost attribution for a single step. -/
structure StepCostEntry where
  Workflow : String
  Job : String
  Step : String
  Cost : ℚ
  Minutes : ℚ
deriving DecidableEq

/-- `CostReport` contains the full cost breakdown. -/
structure CostReport where
  PerStep : List StepCostEntry
  PerJob : GoMap
  PerWorkflow : GoMap
  TotalCost : ℚ
  ProjectedCost30 : ℚ
  TopSteps : List StepCostEntry
deriving DecidableEq

/-- `rateForOS` returns the per-minute rate for a given OS label string. -/
def rateForOS (osLabel : String) : ℚ :=
  let low := strToLower osLabel
  if strContains low "macos" then RateMacOS
  else if strContains low "windows" then RateWindows
  else RateLinux

/-- `resolveRate` determines the per-minute rate from job labels or a default OS. -/
def resolveRate (labels : List String) (defaultOS : String) : ℚ :=
  if labels.length > 0 then RunnerRate labels else rateForOS defaultOS

/-- The inner step loop of `CalculateCost`: one `StepCostEntry` per step with
positive duration, costed at the enclosing job's rate. -/
def stepEntries (rate : ℚ) (wfName jobName : String) : List StepAnalysis → List StepCostEntry
  | [] => []
  | step :: rest =>
    let stepMinutes := GoDuration.minutes step.Duration
    if stepMinutes ≤ 0 then stepEntries rate wfName jobName rest
    else { Workflow := wfName, Job := jobName, Step := step.Name,
           Cost := stepMinutes * rate, Minutes := stepMinutes } :: stepEntries rate wfName jobName rest

/-- State threaded through `CalculateCost`'s job loop. -/
structure JobLoopState where
  perJob : GoMap
  wfCost : ℚ
  allSteps : List StepCostEntry

/-- The job loop of `CalculateCost`: jobs of non-positive duration are skipped
entirely; otherwise the job cost accumulates into `PerJob` and the workflow
cost, and the job's steps are appended to the flat step list. -/
def processJobs (defaultOS wfName : String) : List JobAnalysis → JobLoopState → JobLoopState
  | [], st => st
  | job :: rest, st =>
    let rate := resolveRate job.Labels defaultOS
    let jobMinutes := GoDuration.minutes job.Duration
    if jobMinutes ≤ 0 then processJobs defaultOS wfName rest st
    else
      let jobCost := jobMinutes * rate
      processJobs defaultOS wfName rest
        { perJob := GoMap.addTo st.perJob job.Name jobCost,
          wfCost := st.wfCost + jobCost,
          allSteps := st.allSteps ++ stepEntries rate wfName job.Name job.Steps }

/-- State threaded through `CalculateCost`'s workflow loop. -/
structure WfLoopState where
  perJob : GoMap
  perWorkflow : GoMap
  totalCost : ℚ
  allSteps : List StepCostEntry

/-- The workflow loop of `CalculateCost`: after the job loop, the workflow's
cost accumulates (unconditionally) into `PerWorkflow` and the grand total. -/
def processWorkflows (defaultOS : String) : List WorkflowAnalysis → WfLoopState → WfLoopState
  | [], st => st
  | wf :: rest, st =>
    let r := processJobs defaultOS wf.Name wf.Jobs ⟨st.perJob, 0, st.allSteps⟩
    processWorkflows defaultOS rest
      { perJob := r.perJob,
        perWorkflow := GoMap.addTo st.perWorkflow wf.Name r.wfCost,
        totalCost := st.totalCost + r.wfCost,
        allSteps := r.allSteps }

/-- The `observationDays` normalization at the head of `CalculateCost`:
a value ≤ 0 is replaced by 1. -/
def normDays (d : ℤ) : ℤ := if d ≤ 0 then 1 else d

/-- Insertion step for the model of `sort.Slice(sorted, Cost >)`. -/
def insertByCost (e : StepCostEntry) : List StepCostEntry → List StepCostEntry
  | [] => [e]
  | x :: xs => if x.Cost < e.Cost then e :: x :: xs else x :: insertByCost e xs

/-- Model of `sort.Slice` with comparator `Cost >`: a sort of the step entries
in descending cost order. (Go's `sort.Slice` promises only sortedness; its
behaviour on cost ties is not guaranteed to be stable, so the relative order
of equal-cost entries here is one admissible outcome, not a contract.) -/
def sortByCostDesc : List StepCostEntry → List StepCostEntry
  | [] => []
  | x :: xs => insertByCost x (sortByCostDesc xs)

/-- `CalculateCost` computes a full `CostReport` from analyzed workflow data. -/
def CalculateCost (analyses : List WorkflowAnalysis) (defaultOS : String)
    (observationDays : ℤ) : CostReport :=
  let st := processWorkflows defaultOS analyses ⟨[], [], 0, []⟩
  let sorted := sortByCostDesc st.allSteps
  let top := min 5 sorted.length
  let dailyCost := st.totalCost / ((normDays observationDays : ℤ) : ℚ)
  { PerStep := st.allSteps,
    PerJob := st.perJob,
    PerWorkflow := st.perWorkflow,
    TotalCost := st.totalCost,
    ProjectedCost30 := dailyCost * 30,
    TopSteps := sorted.take top }

end CostEngine

namespace BuildBurn

/-! Embedding of the `main`-package narrative engine (`RunnerRate`, `Analyze`,
`Report`) and the recommendation engine (`GenerateRecommendations` and the
four detectors). -/

/-- `Step` of the shared data model (instants as integer nanoseconds). -/
structure Step where
  Name : String
  Conclusion : String
  StartedAt : ℤ
  CompletedAt : ℤ
deriving DecidableEq

/-- `Job` of the shared data model. -/
structure Job where
  Name : String
  Workflow : String
  Conclusion : String
  Labels : List String
  StartedAt : ℤ
  CompletedAt : ℤ
  Steps : List Step
deriving DecidableEq

/-- `StepCost` of the narrative report. -/
structure StepCost where
  Name : String
  Min : ℚ
deriving DecidableEq

/-- `WasteItem` of the narrative report; the Go field `Type` is spelled `Typ`
here because `Type` is reserved in Lean. -/
structure WasteItem where
  Typ : String
  Detail : String
  Cost : ℚ
deriving DecidableEq

/-- `Report` produced by `Analyze`. -/
structure Report where
  TotalMinutes : ℚ
  TotalCost : ℚ
  MonthlyCost : ℚ
  ByWorkflow : GoMap
  TopSteps : List StepCost
  Waste : List WasteItem
  Suggestions : List String
deriving DecidableEq

/-- The mutable locals of `Analyze`'s job loop (`r`'s accumulating fields,
`stepAgg` and `hasMac`). -/
structure AnalyzeState where
  TotalMinutes : ℚ
  TotalCost : ℚ
  ByWorkflow : GoMap
  Waste : List WasteItem
  stepAgg : GoMap
  hasMac : Bool

/-- The inner step loop of `Analyze`: steps of non-positive duration are
skipped; otherwise the step's minutes accumulate into `stepAgg` and the
cache-miss / slow-deps waste checks run in source order. -/
def analyzeSteps (rate : ℚ) : List Step → GoMap → List WasteItem → GoMap × List WasteItem
  | [], agg, waste => (agg, waste)
  | s :: rest, agg, waste =>
    let sd := GoDuration.minutes (s.CompletedAt - s.StartedAt)
    if sd ≤ 0 then analyzeSteps rate rest agg waste
    else
      let agg2 := GoMap.addTo agg s.Name sd
      let sn := strToLower s.Name
      let waste1 := if strContains sn "cache" && (s.Conclusion == "failure")
        then waste ++ [⟨"cache-miss", s.Name, sd * rate⟩] else waste
      let hasInstall := strContains sn "install" || strContains sn "npm" || strContains sn "pip"
      let waste2 := if decide (3 < sd) && hasInstall
        then waste1 ++ [⟨"slow-deps", s.Name ++ " (" ++ fmtF1 sd ++ "m)", sd * rate * 0.5⟩]
        else waste1
      analyzeSteps rate rest agg2 waste2

/-- One iteration of `Analyze`'s job loop: a job of non-positive duration is
skipped entirely; otherwise its cost accumulates, a failed job appends a
"retry" waste item, and then the step loop runs. -/
def analyzeJob (st : AnalyzeState) (j : Job) : AnalyzeState :=
  let rate := RunnerRate j.Labels
  let dur := GoDuration.minutes (j.CompletedAt - j.StartedAt)
  if dur ≤ 0 then st
  else
    let cost := dur * rate
    let hasMac := st.hasMac || decide (rate = (0.08 : ℚ))
    let waste := if j.Conclusion == "failure"
      then st.Waste ++ [⟨"retry", "Failed: " ++ j.Name, cost⟩] else st.Waste
    let p := analyzeSteps rate j.Steps st.stepAgg waste
    { TotalMinutes := st.TotalMinutes + dur,
      TotalCost := st.TotalCost + cost,
      ByWorkflow := GoMap.addTo st.ByWorkflow j.Workflow cost,
      Waste := p.2,
      stepAgg := p.1,
      hasMac := hasMac }

/-- `Analyze`'s job loop. -/
def analyzeJobs : List Job → AnalyzeState → AnalyzeState
  | [], st => st
  | j :: rest, st => analyzeJobs rest (analyzeJob st j)

/-- Insertion step for the model of `sort.Slice(r.TopSteps, Min >)`. -/
def insertByMin (e : StepCost) : List StepCost → List StepCost
  | [] => [e]
  | x :: xs => if x.Min < e.Min then e :: x :: xs else x :: insertByMin e xs

/-- Model of `sort.Slice` with comparator `Min >` (sortedness only is
guaranteed by the library; tie order is one admissible outcome). -/
def sortByMinDesc : List StepCost → List StepCost
  | [] => []
  | x :: xs => insertByMin x (sortByMinDesc xs)

/-- `Analyze` builds the narrative `Report` from the job collection. The
`for n, m := range stepAgg` loop iterates the map in an order randomized by
the Go runtime; key-insertion order is the admissible order used here. -/
def Analyze (jobs : List Job) (days : ℤ) : Report :=
  let st := analyzeJobs jobs ⟨0, 0, [], [], [], false⟩
  let tops := st.stepAgg.map (fun p => StepCost.mk p.1 p.2)
  let sorted := sortByMinDesc tops
  let topSteps := if sorted.length > 10 then sorted.take 10 else sorted
  let wasteSum := (st.Waste.map (fun w => w.Cost)).sum
  let sugg1 := if 0 < wasteSum
    then ["Fix " ++ toString st.Waste.length ++ " issues to save ~$" ++ fmtF2 wasteSum ++ "/week"]
    else []
  let sugg2 := if st.hasMac then ["macOS runners cost 10x Linux â€” switch where possible"] else []
  let sugg3 := topSteps.filterMap (fun s =>
    if decide (30 < s.Min)
    then some ("'" ++ s.Name ++ "' used " ++ fmtF0 s.Min ++ "m â€” cache or parallelize")
    else none)
  { TotalMinutes := st.TotalMinutes,
    TotalCost := st.TotalCost,
    MonthlyCost := if 0 < days then st.TotalCost / (days : ℚ) * 30 else 0,
    ByWorkflow := st.ByWorkflow,
    TopSteps := topSteps,
    Waste := st.Waste,
    Suggestions := sugg1 ++ sugg2 ++ sugg3 }

/-- `CostReport` as defined locally in the recommendations file: the job
collection plus the observation-day count. -/
structure CostReport where
  Jobs : List Job
  Days : ℤ
deriving DecidableEq

/-- `Recommendation` represents a single optimization suggestion. -/
structure Recommendation where
  RuleID : String
  Severity : String
  EstimatedMonthlySavings : ℚ
  Fix : String
deriving DecidableEq

/-- `monthlyScale` returns a multiplier to extrapolate observed data to a
monthly estimate: 1 when `days ≤ 0`, else 30 ÷ days. -/
def monthlyScale (days : ℤ) : ℚ := if days ≤ 0 then 1 else 30 / (days : ℚ)

/-- The `keywords` list of `DetectCacheMiss`. -/
def cacheKeywords : List String := ["install", "npm ci", "pip install", "go mod download"]

/-- The per-step body of `DetectCacheMiss`'s loops. -/
def cacheMissStep (days : ℤ) (rate : ℚ) (s : Step) : Option Recommendation :=
  let durSec := GoDuration.seconds (s.CompletedAt - s.StartedAt)
  if durSec ≤ 60 then none
  else
    let sn := strToLower s.Name
    let matched := cacheKeywords.any (fun kw => strContains sn kw)
    if !matched then none
    else
      let savedMin := durSec * 0.7 / 60
      let scale := monthlyScale days
      some { RuleID := "cache-miss", Severity := "high",
             EstimatedMonthlySavings := savedMin * rate * scale,
             Fix := "Add actions/cache for step '" ++ s.Name ++ "' (took " ++ fmtF0 durSec
               ++ "s). Caching dependencies can reduce this step by ~70%." }

/-- `DetectCacheMiss` flags dependency-install steps exceeding 60 seconds. -/
def DetectCacheMiss (cr : CostReport) : List Recommendation :=
  cr.Jobs.foldl (fun recs j => recs ++ j.Steps.filterMap (cacheMissStep cr.Days (RunnerRate j.Labels))) []

/-- The per-step body of `DetectLongCheckout`'s loops. -/
def longCheckoutStep (days : ℤ) (rate : ℚ) (s : Step) : Option Recommendation :=
  let durSec := GoDuration.seconds (s.CompletedAt - s.StartedAt)
  if durSec ≤ 30 then none
  else
    let sn := strToLower s.Name
    if !strContains sn "checkout" then none
    else
      let savedMin := durSec * 0.5 / 60
      let scale := monthlyScale days
      some { RuleID := "long-checkout", Severity := "low",
             EstimatedMonthlySavings := savedMin * rate * scale,
             Fix := "Use shallow clone (fetch-depth: 1) for step '" ++ s.Name ++ "' (took "
               ++ fmtF0 durSec ++ "s). This can cut checkout time by ~50%." }

/-- `DetectLongCheckout` flags checkout steps exceeding 30 seconds. -/
def DetectLongCheckout (cr : CostReport) : List Recommendation :=
  cr.Jobs.foldl (fun recs j => recs ++ j.Steps.filterMap (longCheckoutStep cr.Days (RunnerRate j.Labels))) []

/-- Insertion into the job-name set `stepJobs[stepName]` (a `map[string]bool`
used as a set; kept in insertion order). -/
def insertJobName (jobs : List String) (j : String) : List String :=
  if j ∈ jobs then jobs else jobs ++ [j]

/-- One update `stepJobs[s.Name][j.Name] = true` of `DetectDuplicateSteps`. -/
def addStepJob (m : List (String × List String)) (stepName jobName : String) :
    List (String × List String) :=
  match m with
  | [] => [(stepName, [jobName])]
  | (k, v) :: rest =>
      if k = stepName then (k, insertJobName v jobName) :: rest
      else (k, v) :: addStepJob rest stepName jobName

/-- The `stepJobs` map of `DetectDuplicateSteps`: step name → set of distinct
job names containing a step of that name. -/
def stepJobsMap (jobs : List Job) : List (String × List String) :=
  jobs.foldl (fun m j => j.Steps.foldl (fun m2 s => addStepJob m2 s.Name j.Name) m) []

/-- Lookup in the `stepJobs` map. -/
def lookupStepJobs : List (String × List String) → String → Option (List String)
  | [], _ => none
  | (k, v) :: rest, n => if k = n then some v else lookupStepJobs rest n

/-- The `for stepName, jobs := range stepJobs` loop of `DetectDuplicateSteps`,
with the map-iteration order — randomized by the Go runtime on every run —
made explicit as the parameter `order` (admissible orders enumerate the map's
keys exactly once each). -/
def DetectDuplicateStepsWith (order : List String) (cr : CostReport) : List Recommendation :=
  order.filterMap (fun stepName =>
    match lookupStepJobs (stepJobsMap cr.Jobs) stepName with
    | none => none
    | some jobs =>
      if jobs.length < 2 then none
      else some { RuleID := "duplicate-steps", Severity := "medium",
                  EstimatedMonthlySavings := ((jobs.length - 1 : ℕ) : ℚ) * 5,
                  Fix := "Step '" ++ stepName ++ "' appears in " ++ toString jobs.length
                    ++ " jobs. Consider using a matrix strategy or reusable workflow to reduce duplication." })

/-- `DetectDuplicateSteps` under one admissible map-iteration order (key
insertion order); the Go runtime draws a fresh order on each run. -/
def DetectDuplicateSteps (cr : CostReport) : List Recommendation :=
  DetectDuplicateStepsWith ((stepJobsMap cr.Jobs).map (fun p => p.1)) cr

/-- The per-job body of `DetectExpensiveOS`'s loop: `isMac` scans every label
for the substring "macos"; a macOS job longer than 5 minutes is flagged with
savings priced from the fixed constants 0.08 and 0.008 per minute. -/
def expensiveOSJob (days : ℤ) (j : Job) : Option Recommendation :=
  let isMac := j.Labels.any (fun l => strContains (strToLower l) "macos")
  if !isMac then none
  else
    let durMin := GoDuration.minutes (j.CompletedAt - j.StartedAt)
    if durMin ≤ 5 then none
    else
      let scale := monthlyScale days
      some { RuleID := "expensive-os", Severity := "high",
             EstimatedMonthlySavings := durMin * (0.08 - 0.008) * scale,
             Fix := "Job '" ++ j.Name ++ "' runs on macOS for " ++ fmtF1 durMin ++ " min ($"
               ++ fmtF2 (durMin * 0.08)
               ++ "/run). macOS runners cost 10x Linux. Move non-GUI tests to ubuntu-latest to save ~90%." }

/-- `DetectExpensiveOS` flags macOS jobs running longer than 5 minutes. -/
def DetectExpensiveOS (cr : CostReport) : List Recommendation :=
  cr.Jobs.filterMap (expensiveOSJob cr.Days)

/-- `GenerateRecommendations` concatenates the four detectors in fixed order. -/
def GenerateRecommendations (cr : CostReport) : List Recommendation :=
  DetectCacheMiss cr ++ DetectLongCheckout cr ++ DetectDuplicateSteps cr ++ DetectExpensiveOS cr

end BuildBurn

/-- Spec-side restatement of the rate-resolution contract, written from the
spec's words for comparison with the source's `RunnerRate` loop: the first
label (in given order) whose lowercased text contains a recognized platform
substring wins ("macos" → high tier, else "windows" → mid tier); no matching
label means the low-tier default. -/
def firstPlatformRate (labels : List String) : ℚ :=
  match labels.find? (fun l =>
      strContains (strToLower l) "macos" || strContains (strToLower l) "windows") with
  | some l => if strContains (strToLower l) "macos" then 0.08 else 0.016
  | none => 0.008

theorem runnerRate_eq_firstPlatformRate (labels : List String) :
    RunnerRate labels = firstPlatformRate labels := by
  induction labels with
  | nil => rfl
  | cons l rest ih =>
    by_cases hm : strContains (strToLower l) "macos" = true
    · simp [RunnerRate, firstPlatformRate, List.find?, hm]
    · by_cases hw : strContains (strToLower l) "windows" = true
      · simp [RunnerRate, firstPlatformRate, List.find?, hm, hw]
      · simp only [RunnerRate, firstPlatformRate, List.find?, hm, hw] at *
        simpa [hm, hw] using ih

/-- Claim C4: rate resolution examines labels in order with first-match-wins
substring semantics ("macos" → 0.08, "windows" → 0.016, default 0.008), with
the listed concrete resolutions, and an empty label list with default-OS
"macos" resolves through the same substring rule to the high tier. -/
theorem c4_rate_resolution :
    (∀ labels : List String, RunnerRate labels = firstPlatformRate labels)
    ∧ RunnerRate ["ubuntu-latest"] = 0.008
    ∧ RunnerRate ["windows-latest"] = 0.016
    ∧ RunnerRate ["macos-latest"] = 0.08
    ∧ RunnerRate ["macos-13"] = 0.08
    ∧ RunnerRate ["self-hosted", "linux"] = 0.008
    ∧ CostEngine.resolveRate [] "macos" = 0.08 := by
  refine ⟨runnerRate_eq_firstPlatformRate, ?_, ?_, ?_, ?_, ?_, ?_⟩ <;> decide

namespace CostEngine

theorem processJobs_perJob_sum (dOS wfName : String) (jobs : List JobAnalysis)
    (st : JobLoopState) :
    GoMap.valuesSum (processJobs dOS wfName jobs st).perJob + st.wfCost
      = GoMap.valuesSum st.perJob + (processJobs dOS wfName jobs st).wfCost := by
  induction jobs generalizing st with
  | nil => simp [processJobs]
  | cons job rest ih =>
    by_cases h : GoDuration.minutes job.Duration ≤ 0
    · simpa [processJobs, h] using ih st
    · simp only [processJobs, if_neg h]
      have h2 := ih
        { perJob := GoMap.addTo st.perJob job.Name
            (GoDuration.minutes job.Duration * resolveRate job.Labels dOS),
          wfCost := st.wfCost + GoDuration.minutes job.Duration * resolveRate job.Labels dOS,
          allSteps := st.allSteps ++ stepEntries (resolveRate job.Labels dOS) wfName job.Name job.Steps }
      rw [GoMap.valuesSum_addTo] at h2
      dsimp at h2 ⊢
      linarith

theorem processWorkflows_perWorkflow_sum (dOS : String) (analyses : List WorkflowAnalysis)
    (st : WfLoopState) :
    GoMap.valuesSum (processWorkflows dOS analyses st).perWorkflow + st.totalCost
      = GoMap.valuesSum st.perWorkflow + (processWorkflows dOS analyses st).totalCost := by
  induction analyses generalizing st with
  | nil => simp [processWorkflows]
  | cons wf rest ih =>
    simp only [processWorkflows]
    have h2 := ih
      { perJob := (processJobs dOS wf.Name wf.Jobs ⟨st.perJob, 0, st.allSteps⟩).perJob,
        perWorkflow := GoMap.addTo st.perWorkflow wf.Name
          (processJobs dOS wf.Name wf.Jobs ⟨st.perJob, 0, st.allSteps⟩).wfCost,
        totalCost := st.totalCost + (processJobs dOS wf.Name wf.Jobs ⟨st.perJob, 0, st.allSteps⟩).wfCost,
        allSteps := (processJobs dOS wf.Name wf.Jobs ⟨st.perJob, 0, st.allSteps⟩).allSteps }
    rw [GoMap.valuesSum_addTo] at h2
    dsimp at h2 ⊢
    linarith

theorem processWorkflows_perJob_sum (dOS : String) (analyses : List WorkflowAnalysis)
    (st : WfLoopState) :
    GoMap.valuesSum (processWorkflows dOS analyses st).perJob + st.totalCost
      = GoMap.valuesSum st.perJob + (processWorkflows dOS analyses st).totalCost := by
  induction analyses generalizing st with
  | nil => simp [processWorkflows]
  | cons wf rest ih =>
    simp only [processWorkflows]
    have hJ := processJobs_perJob_sum dOS wf.Name wf.Jobs ⟨st.perJob, 0, st.allSteps⟩
    have h2 := ih
      { perJob := (processJobs dOS wf.Name wf.Jobs ⟨st.perJob, 0, st.allSteps⟩).perJob,
        perWorkflow := GoMap.addTo st.perWorkflow wf.Name
          (processJobs dOS wf.Name wf.Jobs ⟨st.perJob, 0, st.allSteps⟩).wfCost,
        totalCost := st.totalCost + (processJobs dOS wf.Name wf.Jobs ⟨st.perJob, 0, st.allSteps⟩).wfCost,
        allSteps := (processJobs dOS wf.Name wf.Jobs ⟨st.perJob, 0, st.allSteps⟩).allSteps }
    dsimp at hJ h2 ⊢
    linarith

/-- Claim C5: the report's total cost equals the sum of all per-workflow costs
and also equals the sum of all per-job costs. -/
theorem c5_total_cost_invariant (analyses : List WorkflowAnalysis) (defaultOS : String)
    (observationDays : ℤ) :
    (CalculateCost analyses defaultOS observationDays).TotalCost
      = GoMap.valuesSum (CalculateCost analyses defaultOS observationDays).PerWorkflow
    ∧ (CalculateCost analyses defaultOS observationDays).TotalCost
      = GoMap.valuesSum (CalculateCost analyses defaultOS observationDays).PerJob := by
  have h1 := processWorkflows_perWorkflow_sum defaultOS analyses ⟨[], [], 0, []⟩
  have h2 := processWorkflows_perJob_sum defaultOS analyses ⟨[], [], 0, []⟩
  simp only [GoMap.valuesSum, List.map_nil, List.sum_nil] at h1 h2
  constructor
  · simp only [CalculateCost, GoMap.valuesSum]
    linarith
  · simp only [CalculateCost, GoMap.valuesSum]
    linarith

/-- Claim C6: the 30-day projection equals (total ÷ max(days, 1)) × 30, and is
0 whenever the total cost is 0. -/
theorem c6_projection (analyses : List WorkflowAnalysis) (defaultOS : String) (days : ℤ) :
    (CalculateCost analyses defaultOS days).ProjectedCost30
      = (CalculateCost analyses defaultOS days).TotalCost / ((max days 1 : ℤ) : ℚ) * 30
    ∧ ((CalculateCost analyses defaultOS days).TotalCost = 0 →
        (CalculateCost analyses defaultOS days).ProjectedCost30 = 0) := by
  have hnorm : normDays days = max days 1 := by
    unfold normDays
    split <;> omega
  constructor
  · simp only [CalculateCost, hnorm]
  · intro h
    simp only [CalculateCost] at h ⊢
    rw [h]
    simp

/-- Witness for C6 at a concrete empty input with zero total cost. -/
theorem c6_projection_witness :
    (CalculateCost [] "linux" 7).ProjectedCost30 = 0 :=
  (c6_projection [] "linux" 7).2 (by decide)

end CostEngine

namespace CostEngine

theorem processJobs_perJob_keys_mono (dOS wfName : String) (jobs : List JobAnalysis)
    (st : JobLoopState) (k : String) (h : k ∈ GoMap.keys st.perJob) :
    k ∈ GoMap.keys (processJobs dOS wfName jobs st).perJob := by
  induction jobs generalizing st with
  | nil => simpa [processJobs] using h
  | cons job rest ih =>
    by_cases hdur : GoDuration.minutes job.Duration ≤ 0
    · simp only [processJobs, if_pos hdur]
      exact ih st h
    · simp only [processJobs, if_neg hdur]
      exact ih _ (GoMap.mem_keys_addTo_of_mem _ _ _ _ h)

theorem processJobs_perJob_keys_mem (dOS wfName : String) (jobs : List JobAnalysis)
    (st : JobLoopState) (job : JobAnalysis) (hj : job ∈ jobs)
    (hpos : ¬ GoDuration.minutes job.Duration ≤ 0) :
    job.Name ∈ GoMap.keys (processJobs dOS wfName jobs st).perJob := by
  induction jobs generalizing st with
  | nil => cases hj
  | cons job0 rest ih =>
    rcases List.mem_cons.1 hj with h | h
    · subst h
      simp only [processJobs, if_neg hpos]
      exact processJobs_perJob_keys_mono dOS wfName rest _ _ (GoMap.mem_keys_addTo_self _ _ _)
    · by_cases hdur : GoDuration.minutes job0.Duration ≤ 0
      · simp only [processJobs, if_pos hdur]
        exact ih st h
      · simp only [processJobs, if_neg hdur]
        exact ih _ h

theorem processWorkflows_perWorkflow_keys_mono (dOS : String)
    (analyses : List WorkflowAnalysis) (st : WfLoopState) (k : String)
    (h : k ∈ GoMap.keys st.perWorkflow) :
    k ∈ GoMap.keys (processWorkflows dOS analyses st).perWorkflow := by
  induction analyses generalizing st with
  | nil => simpa [processWorkflows] using h
  | cons wf rest ih =>
    simp only [processWorkflows]
    exact ih _ (GoMap.mem_keys_addTo_of_mem _ _ _ _ h)

theorem processWorkflows_perWorkflow_keys_mem (dOS : String)
    (analyses : List WorkflowAnalysis) (st : WfLoopState) (wf : WorkflowAnalysis)
    (h : wf ∈ analyses) :
    wf.Name ∈ GoMap.keys (processWorkflows dOS analyses st).perWorkflow := by
  induction analyses generalizing st with
  | nil => cases h
  | cons wf0 rest ih =>
    rcases List.mem_cons.1 h with h0 | h0
    · subst h0
      simp only [processWorkflows]
      exact processWorkflows_perWorkflow_keys_mono dOS rest _ _
        (GoMap.mem_keys_addTo_self _ _ _)
    · simp only [processWorkflows]
      exact ih _ h0

theorem processWorkflows_perJob_keys_mono (dOS : String)
    (analyses : List WorkflowAnalysis) (st : WfLoopState) (k : String)
    (h : k ∈ GoMap.keys st.perJob) :
    k ∈ GoMap.keys (processWorkflows dOS analyses st).perJob := by
  induction analyses generalizing st with
  | nil => simpa [processWorkflows] using h
  | cons wf rest ih =>
    simp only [processWorkflows]
    exact ih _ (processJobs_perJob_keys_mono dOS wf.Name wf.Jobs ⟨st.perJob, 0, st.allSteps⟩ k h)

theorem processWorkflows_perJob_keys_mem (dOS : String)
    (analyses : List WorkflowAnalysis) (st : WfLoopState) (wf : WorkflowAnalysis)
    (job : JobAnalysis) (hwf : wf ∈ analyses) (hjob : job ∈ wf.Jobs)
    (hpos : ¬ GoDuration.minutes job.Duration ≤ 0) :
    job.Name ∈ GoMap.keys (processWorkflows dOS analyses st).perJob := by
  induction analyses generalizing st with
  | nil => cases hwf
  | cons wf0 rest ih =>
    rcases List.mem_cons.1 hwf with h0 | h0
    · subst h0
      simp only [processWorkflows]
      exact processWorkflows_perJob_keys_mono dOS rest _ _
        (processJobs_perJob_keys_mem dOS wf.Name wf.Jobs _ job hjob hpos)
    · simp only [processWorkflows]
      exact ih _ h0

/-- The job names encountered in the input, in traversal order (the notion of
"every job name encountered" of the per-job map guarantee). -/
def encounteredJobNames (analyses : List WorkflowAnalysis) : List String :=
  analyses.foldl (fun acc wf => acc ++ wf.Jobs.map (fun j => j.Name)) []

/-- Claim C1 (counterexample): in a run whose only job has zero duration, that
job's name is encountered but the `PerJob` map of the report has no entry for
it (the job is skipped before the map is touched), contradicting the claim
that `PerJob` holds an entry for every job name encountered even when all its
occurrences have non-positive duration. -/
theorem c1_perjob_entry_missing :
    "j" ∈ encounteredJobNames [⟨"wf", [⟨"j", 0, ["ubuntu-latest"], []⟩]⟩]
    ∧ "j" ∉ GoMap.keys
        (CalculateCost [⟨"wf", [⟨"j", 0, ["ubuntu-latest"], []⟩]⟩] "linux" 7).PerJob := by
  decide

/-- Claim C1 (amended): `PerWorkflow` holds an entry (possibly zero) for every
workflow name encountered, even when all of its jobs have non-positive
duration; `PerJob` holds an entry for a job name only where some occurrence
has positive duration (jobs of non-positive duration are skipped before the
per-job map is touched). -/
theorem c1_map_entries (analyses : List WorkflowAnalysis) (defaultOS : String)
    (observationDays : ℤ) :
    (∀ wf ∈ analyses,
      wf.Name ∈ GoMap.keys (CalculateCost analyses defaultOS observationDays).PerWorkflow)
    ∧ (∀ wf ∈ analyses, ∀ job ∈ wf.Jobs, ¬ GoDuration.minutes job.Duration ≤ 0 →
      job.Name ∈ GoMap.keys (CalculateCost analyses defaultOS observationDays).PerJob) := by
  constructor
  · intro wf hwf
    simp only [CalculateCost]
    exact processWorkflows_perWorkflow_keys_mem defaultOS analyses _ wf hwf
  · intro wf hwf job hjob hpos
    simp only [CalculateCost]
    exact processWorkflows_perJob_keys_mem defaultOS analyses _ wf job hwf hjob hpos

/-- Witness for the amended C1 at a concrete input: the zero-duration
workflow "wf" still gets a `PerWorkflow` entry, and the positive-duration job
"build" gets a `PerJob` entry. -/
theorem c1_map_entries_witness :
    "wf" ∈ GoMap.keys
      (CalculateCost [⟨"wf", [⟨"j", 0, ["ubuntu-latest"], []⟩]⟩,
                      ⟨"CI", [⟨"build", 600000000000, ["ubuntu-latest"], []⟩]⟩] "linux" 7).PerWorkflow
    ∧ "build" ∈ GoMap.keys
      (CalculateCost [⟨"wf", [⟨"j", 0, ["ubuntu-latest"], []⟩]⟩,
                      ⟨"CI", [⟨"build", 600000000000, ["ubuntu-latest"], []⟩]⟩] "linux" 7).PerJob :=
  ⟨(c1_map_entries [⟨"wf", [⟨"j", 0, ["ubuntu-latest"], []⟩]⟩,
      ⟨"CI", [⟨"build", 600000000000, ["ubuntu-latest"], []⟩]⟩] "linux" 7).1
      ⟨"wf", [⟨"j", 0, ["ubuntu-latest"], []⟩]⟩ (by decide),
   (c1_map_entries [⟨"wf", [⟨"j", 0, ["ubuntu-latest"], []⟩]⟩,
      ⟨"CI", [⟨"build", 600000000000, ["ubuntu-latest"], []⟩]⟩] "linux" 7).2
      ⟨"CI", [⟨"build", 600000000000, ["ubuntu-latest"], []⟩]⟩ (by decide)
      ⟨"build", 600000000000, ["ubuntu-latest"], []⟩ (by decide) (by decide)⟩

end CostEngine

/-- Claim C3 (counterexample): at observation days 0 with a single successful
10-minute Linux job, `monthlyScale` returns 1 (not 30), and `Analyze` leaves
the monthly estimate at 0 (not total cost × 30, which is 2.4 here). -/
theorem c3_days_zero_counterexample :
    ¬ BuildBurn.monthlyScale 0 = 30
    ∧ (BuildBurn.Analyze [⟨"build", "CI", "success", ["ubuntu-latest"], 0, 600000000000, []⟩] 0).TotalCost = 0.08
    ∧ (BuildBurn.Analyze [⟨"build", "CI", "success", ["ubuntu-latest"], 0, 600000000000, []⟩] 0).MonthlyCost = 0
    ∧ ¬ (BuildBurn.Analyze [⟨"build", "CI", "success", ["ubuntu-latest"], 0, 600000000000, []⟩] 0).MonthlyCost
        = (BuildBurn.Analyze [⟨"build", "CI", "success", ["ubuntu-latest"], 0, 600000000000, []⟩] 0).TotalCost * 30 := by
  decide

/-- Claim C3 (amended): for observation days d ≤ 0, the recommendation
detectors' monthly-scale factor is 1 (the observed figures pass through
unscaled, not × 30), the narrative report's monthly estimate stays 0 (its
scaling is applied only when d > 0), and only the cost aggregator
`CalculateCost` treats d ≤ 0 as 1, projecting total cost × 30. -/
theorem c3_days_nonpositive (d : ℤ) (hd : d ≤ 0) (jobs : List BuildBurn.Job)
    (analyses : List CostEngine.WorkflowAnalysis) (defaultOS : String) :
    BuildBurn.monthlyScale d = 1
    ∧ (BuildBurn.Analyze jobs d).MonthlyCost = 0
    ∧ (CostEngine.CalculateCost analyses defaultOS d).ProjectedCost30
        = (CostEngine.CalculateCost analyses defaultOS d).TotalCost * 30 := by
  refine ⟨?_, ?_, ?_⟩
  · simp [BuildBurn.monthlyScale, hd]
  · have hnd : ¬ 0 < d := by omega
    simp [BuildBurn.Analyze, hnd]
  · have hnd : CostEngine.normDays d = 1 := by simp [CostEngine.normDays, hd]
    simp [CostEngine.CalculateCost, hnd]

/-- Witness for the amended C3 at d = −5 and concrete (empty) inputs. -/
theorem c3_days_nonpositive_witness :
    BuildBurn.monthlyScale (-5) = 1
    ∧ (BuildBurn.Analyze [] (-5)).MonthlyCost = 0
    ∧ (CostEngine.CalculateCost [] "linux" (-5)).ProjectedCost30
        = (CostEngine.CalculateCost [] "linux" (-5)).TotalCost * 30 :=
  c3_days_nonpositive (-5) (by decide) [] [] "linux"

namespace BuildBurn

theorem mem_ite_append {α : Type} (w : α) (b : Prop) [Decidable b] (l extra : List α)
    (h : w ∈ l) : w ∈ (if b then l ++ extra else l) := by
  split
  · exact List.mem_append_left _ h
  · exact h

theorem analyzeSteps_waste_mono (rate : ℚ) (steps : List Step) (agg : GoMap)
    (waste : List WasteItem) (w : WasteItem) (h : w ∈ waste) :
    w ∈ (analyzeSteps rate steps agg waste).2 := by
  induction steps generalizing agg waste with
  | nil => simpa [analyzeSteps] using h
  | cons s rest ih =>
    by_cases hsd : GoDuration.minutes (s.CompletedAt - s.StartedAt) ≤ 0
    · simp only [analyzeSteps, if_pos hsd]
      exact ih _ _ h
    · simp only [analyzeSteps, if_neg hsd]
      apply ih
      apply mem_ite_append
      apply mem_ite_append
      exact h

theorem analyzeJob_waste_mono (st : AnalyzeState) (j : Job) (w : WasteItem)
    (h : w ∈ st.Waste) : w ∈ (analyzeJob st j).Waste := by
  unfold analyzeJob
  by_cases hdur : GoDuration.minutes (j.CompletedAt - j.StartedAt) ≤ 0
  · simpa [hdur] using h
  · simp only [if_neg hdur]
    apply analyzeSteps_waste_mono
    apply mem_ite_append
    exact h

/-- The "retry" waste item `Analyze` appends for a failed job. -/
def retryItem (j : Job) : WasteItem :=
  ⟨"retry", "Failed: " ++ j.Name,
    GoDuration.minutes (j.CompletedAt - j.StartedAt) * RunnerRate j.Labels⟩

theorem analyzeJob_retry_mem (st : AnalyzeState) (j : Job)
    (hfail : j.Conclusion = "failure")
    (hpos : ¬ GoDuration.minutes (j.CompletedAt - j.StartedAt) ≤ 0) :
    retryItem j ∈ (analyzeJob st j).Waste := by
  unfold analyzeJob
  simp only [if_neg hpos]
  apply analyzeSteps_waste_mono
  have hf : (j.Conclusion == "failure") = true := by simp [hfail]
  simp only [hf, if_true]
  exact List.mem_append_right _ (List.mem_singleton.2 rfl)

theorem analyzeJobs_waste_mono (jobs : List Job) (st : AnalyzeState) (w : WasteItem)
    (h : w ∈ st.Waste) : w ∈ (analyzeJobs jobs st).Waste := by
  induction jobs generalizing st with
  | nil => simpa [analyzeJobs] using h
  | cons j rest ih =>
    simp only [analyzeJobs]
    exact ih _ (analyzeJob_waste_mono _ _ _ h)

theorem analyzeJobs_retry_mem (jobs : List Job) (st : AnalyzeState) (j : Job)
    (hj : j ∈ jobs) (hfail : j.Conclusion = "failure")
    (hpos : ¬ GoDuration.minutes (j.CompletedAt - j.StartedAt) ≤ 0) :
    retryItem j ∈ (analyzeJobs jobs st).Waste := by
  induction jobs generalizing st with
  | nil => cases hj
  | cons j0 rest ih =>
    rcases List.mem_cons.1 hj with h0 | h0
    · subst h0
      simp only [analyzeJobs]
      exact analyzeJobs_waste_mono rest _ _ (analyzeJob_retry_mem st j hfail hpos)
    · simp only [analyzeJobs]
      exact ih _ h0

/-- Claim C8 (counterexample): a job with outcome "failure" but zero duration
is skipped by `Analyze` before the failure check, so no "retry" waste finding
is emitted for it, contradicting the claim's "for every job whose outcome is
failure ... regardless of which job it is". -/
theorem c8_failed_job_skipped :
    (⟨"j", "wf", "failure", ["ubuntu-latest"], 0, 0, []⟩ : Job).Conclusion = "failure"
    ∧ (Analyze [⟨"j", "wf", "failure", ["ubuntu-latest"], 0, 0, []⟩] 7).Waste = [] := by
  decide

/-- Claim C8 (amended): `Analyze` emits a "retry" waste finding, whose cost is
the job's full cost (entire duration in minutes × its rate), for every job
whose outcome is failure and whose duration is positive; failed jobs of
non-positive duration are skipped entirely and yield no finding. -/
theorem c8_retry_waste (jobs : List Job) (days : ℤ) (j : Job) (hj : j ∈ jobs)
    (hfail : j.Conclusion = "failure")
    (hpos : ¬ GoDuration.minutes (j.CompletedAt - j.StartedAt) ≤ 0) :
    retryItem j ∈ (Analyze jobs days).Waste := by
  have h := analyzeJobs_retry_mem jobs ⟨0, 0, [], [], [], false⟩ j hj hfail hpos
  simpa [Analyze] using h

/-- Witness for the amended C8: an 8-minute failed Linux job produces the
retry finding carrying its full cost. -/
theorem c8_retry_waste_witness :
    retryItem ⟨"build", "CI", "failure", ["ubuntu-latest"], 0, 480000000000, []⟩
      ∈ (Analyze [⟨"build", "CI", "failure", ["ubuntu-latest"], 0, 480000000000, []⟩] 7).Waste :=
  c8_retry_waste [⟨"build", "CI", "failure", ["ubuntu-latest"], 0, 480000000000, []⟩] 7
    ⟨"build", "CI", "failure", ["ubuntu-latest"], 0, 480000000000, []⟩
    (by decide) (by decide) (by decide)

end BuildBurn

namespace BuildBurn

/-- Concrete input for the map-iteration-order analysis: two jobs sharing the
two step names "s" and "t". -/
def c9cr : CostReport :=
  ⟨[⟨"jobA", "CI", "success", [], 0, 60000000000,
      [⟨"s", "success", 0, 60000000000⟩, ⟨"t", "success", 0, 60000000000⟩]⟩,
    ⟨"jobB", "CI", "success", [], 0, 60000000000,
      [⟨"s", "success", 0, 60000000000⟩, ⟨"t", "success", 0, 60000000000⟩]⟩], 7⟩

/-- Claim C9 (counterexample): `DetectDuplicateSteps` ranges over a Go map,
whose iteration order is randomized per run; the two admissible iteration
orders of the `stepJobs` keys below are both permutations of the key list,
yet they yield different (reordered) recommendation lists, so two runs on the
same input need not produce identical output, contradicting the claim that
output order is deterministic. -/
theorem c9_map_order_counterexample :
    List.Perm ["s", "t"] ((stepJobsMap c9cr.Jobs).map (fun p => p.1))
    ∧ List.Perm ["t", "s"] ((stepJobsMap c9cr.Jobs).map (fun p => p.1))
    ∧ DetectDuplicateStepsWith ["s", "t"] c9cr ≠ DetectDuplicateStepsWith ["t", "s"] c9cr := by
  refine ⟨by decide, ?_, by decide⟩
  have h : (["t", "s"] : List String).Perm ["s", "t"] := List.Perm.swap _ _ _
  have h2 : ((stepJobsMap c9cr.Jobs).map (fun p => p.1)) = ["s", "t"] := by decide
  rw [h2]
  exact h

/-- Claim C9 (amended): the detectors are deterministic for a fixed
map-iteration order, and across the randomized orders only the arrangement
changes: any two iteration orders that are permutations of one another yield
`duplicate-steps` recommendation lists that are permutations of one another
(the same findings, possibly reordered). -/
theorem c9_duplicate_steps_order (order1 order2 : List String) (cr : CostReport)
    (h : order1.Perm order2) :
    (DetectDuplicateStepsWith order1 cr).Perm (DetectDuplicateStepsWith order2 cr) :=
  List.Perm.filterMap _ h

/-- Witness for the amended C9 at the two concrete iteration orders. -/
theorem c9_duplicate_steps_order_witness :
    (DetectDuplicateStepsWith ["s", "t"] c9cr).Perm (DetectDuplicateStepsWith ["t", "s"] c9cr) :=
  c9_duplicate_steps_order ["s", "t"] ["t", "s"] c9cr (List.Perm.swap _ _ _)

end BuildBurn

namespace BuildBurn

/-- Spec-side trigger for the cache-miss rule, from the claim's words: the
lowercased step name contains one of the dependency-install keywords and the
step's duration exceeds 60 seconds. -/
def cacheMissTrigger (s : Step) : Bool :=
  (cacheKeywords.any (fun kw => strContains (strToLower s.Name) kw))
    && decide (60 < GoDuration.seconds (s.CompletedAt - s.StartedAt))

/-- Spec-side savings formula for the cache-miss rule: 70% of the step's
duration in minutes × the job's rate × the monthly-scale factor. -/
def cacheMissClaimSavings (days : ℤ) (rate : ℚ) (s : Step) : ℚ :=
  0.7 * (GoDuration.seconds (s.CompletedAt - s.StartedAt) / 60) * rate * monthlyScale days

/-- The recommendation predicted for a triggering step: rule id "cache-miss",
severity "high", the claim's savings formula, and the remediation text naming
the step and its duration. -/
def cacheMissClaimRec (days : ℤ) (rate : ℚ) (s : Step) : Recommendation :=
  { RuleID := "cache-miss", Severity := "high",
    EstimatedMonthlySavings := cacheMissClaimSavings days rate s,
    Fix := "Add actions/cache for step '" ++ s.Name ++ "' (took "
      ++ fmtF0 (GoDuration.seconds (s.CompletedAt - s.StartedAt))
      ++ "s). Caching dependencies can reduce this step by ~70%." }

theorem cacheMissStep_eq (days : ℤ) (rate : ℚ) (s : Step) :
    cacheMissStep days rate s
      = if cacheMissTrigger s = true then some (cacheMissClaimRec days rate s) else none := by
  unfold cacheMissStep cacheMissTrigger cacheMissClaimRec cacheMissClaimSavings
  by_cases h60 : GoDuration.seconds (s.CompletedAt - s.StartedAt) ≤ 60
  · have hlt : ¬ 60 < GoDuration.seconds (s.CompletedAt - s.StartedAt) := not_lt.2 h60
    simp [h60, hlt]
  · by_cases hkw : (cacheKeywords.any fun kw => strContains (strToLower s.Name) kw) = true
    · have hlt : 60 < GoDuration.seconds (s.CompletedAt - s.StartedAt) := not_le.1 h60
      simp only [h60, hkw, hlt, decide_True, Bool.and_true, if_true, Bool.not_true,
        Bool.false_eq_true, if_false, Option.some.injEq]
      congr 1
      dsimp only []
      ring
    · simp [h60, hkw]

theorem foldl_append_flatten {α β : Type} (g : α → List β) (l : List α) (acc : List β) :
    l.foldl (fun acc2 a => acc2 ++ g a) acc = acc ++ (l.map g).flatten := by
  induction l generalizing acc with
  | nil => simp
  | cons a t ih => simp [ih, List.append_assoc]

theorem filterMap_ite_eq_map_filter {α β : Type} (p : α → Bool) (g : α → β) (l : List α) :
    l.filterMap (fun a => if p a = true then some (g a) else none)
      = (l.filter p).map g := by
  induction l with
  | nil => rfl
  | cons a t ih =>
    by_cases h : p a = true <;> simp [List.filterMap_cons, List.filter_cons, h, ih]

theorem detectCacheMiss_eq (cr : CostReport) :
    DetectCacheMiss cr
      = (cr.Jobs.map (fun j =>
          (j.Steps.filter cacheMissTrigger).map
            (cacheMissClaimRec cr.Days (RunnerRate j.Labels)))).flatten := by
  unfold DetectCacheMiss
  rw [foldl_append_flatten
    (fun j => j.Steps.filterMap (cacheMissStep cr.Days (RunnerRate j.Labels))) cr.Jobs []]
  simp only [List.nil_append]
  apply congrArg List.flatten
  apply List.map_congr_left
  intro j hj
  rw [show cacheMissStep cr.Days (RunnerRate j.Labels)
      = (fun s => if cacheMissTrigger s = true
          then some (cacheMissClaimRec cr.Days (RunnerRate j.Labels) s) else none)
    from funext (cacheMissStep_eq cr.Days (RunnerRate j.Labels))]
  exact filterMap_ite_eq_map_filter _ _ _

theorem cacheMissClaimRec_fix_ne (days : ℤ) (rate : ℚ) (s : Step) :
    (cacheMissClaimRec days rate s).Fix ≠ "" := by
  unfold cacheMissClaimRec
  intro hc
  have h1 := congrArg String.length hc
  simp only [String.length_append] at h1
  have h2 : ("Add actions/cache for step '" : String).length = 28 := by decide
  have h3 : ("" : String).length = 0 := by decide
  rw [h2, h3] at h1
  omega

/-- Concrete scenario step: "npm install" taking 90 seconds. -/
def c7step90 : Step := ⟨"npm install", "success", 0, 90000000000⟩

/-- Concrete scenario: the 90-second step in a low-tier job, 7 observed days. -/
def c7cr90 : CostReport :=
  ⟨[⟨"build", "CI", "success", ["ubuntu-latest"], 0, 300000000000, [c7step90]⟩], 7⟩

/-- Concrete scenario: the same step at 30 seconds. -/
def c7cr30 : CostReport :=
  ⟨[⟨"build", "CI", "success", ["ubuntu-latest"], 0, 300000000000,
      [⟨"npm install", "success", 0, 30000000000⟩]⟩], 7⟩

/-- Claim C7: `DetectCacheMiss` emits recommendations exactly for the steps
whose lowercased name contains a dependency-install keyword and whose
duration exceeds 60 seconds, each with rule id "cache-miss", severity "high",
non-empty remediation text and savings 70% of step minutes × rate × monthly
scale; concretely, an "npm install" step of 90s in a low-tier job yields one
such recommendation with positive savings and the same step at 30s yields
none. -/
theorem c7_cache_miss (cr : CostReport) :
    (DetectCacheMiss cr
      = (cr.Jobs.map (fun j =>
          (j.Steps.filter cacheMissTrigger).map
            (cacheMissClaimRec cr.Days (RunnerRate j.Labels)))).flatten)
    ∧ (∀ r ∈ DetectCacheMiss cr,
        r.RuleID = "cache-miss" ∧ r.Severity = "high" ∧ r.Fix ≠ "")
    ∧ DetectCacheMiss c7cr90 = [cacheMissClaimRec 7 0.008 c7step90]
    ∧ 0 < (cacheMissClaimRec 7 0.008 c7step90).EstimatedMonthlySavings
    ∧ DetectCacheMiss c7cr30 = [] := by
  refine ⟨detectCacheMiss_eq cr, ?_, by decide, by decide, by decide⟩
  intro r hr
  rw [detectCacheMiss_eq] at hr
  rcases List.mem_flatten.1 hr with ⟨l, hl, hrl⟩
  rcases List.mem_map.1 hl with ⟨j, hj, rfl⟩
  rcases List.mem_map.1 hrl with ⟨s, hs, rfl⟩
  exact ⟨rfl, rfl, cacheMissClaimRec_fix_ne _ _ _⟩

/-- Witness for C7: the cache-miss recommendation for the concrete 90-second
"npm install" step carries the stated rule id, severity and a non-empty fix. -/
theorem c7_cache_miss_witness :
    (cacheMissClaimRec 7 0.008 c7step90).RuleID = "cache-miss"
    ∧ (cacheMissClaimRec 7 0.008 c7step90).Severity = "high"
    ∧ (cacheMissClaimRec 7 0.008 c7step90).Fix ≠ "" :=
  (c7_cache_miss c7cr90).2.1 (cacheMissClaimRec 7 0.008 c7step90) (by decide)

end BuildBurn

namespace BuildBurn

/-- Concrete job for the expensive-os analysis: labels list both Windows and
macOS, 10 minutes long. -/
def c10job : Job := ⟨"hybrid", "CI", "success", ["windows-latest", "macos-13"], 0, 600000000000, []⟩

/-- Claim C10: `DetectExpensiveOS` classifies a job as macOS when any of its
labels contains "macos" (a scan of every label, not first-match-wins) and
prices the saving from the fixed constants 0.08 and 0.008 per minute; a job
labelled ["windows-latest", "macos-13"] running over 5 minutes is flagged
with savings duration × (0.08 − 0.008) × monthly scale, even though
`RunnerRate` bills that same label list at the Windows rate 0.016. -/
theorem c10_expensive_os (cr : CostReport) (j : Job) (hj : j ∈ cr.Jobs)
    (hmac : ∃ l ∈ j.Labels, strContains (strToLower l) "macos" = true)
    (hdur : ¬ GoDuration.minutes (j.CompletedAt - j.StartedAt) ≤ 5) :
    (∃ r ∈ DetectExpensiveOS cr,
      r.RuleID = "expensive-os" ∧ r.Severity = "high"
      ∧ r.EstimatedMonthlySavings
          = GoDuration.minutes (j.CompletedAt - j.StartedAt) * (0.08 - 0.008) * monthlyScale cr.Days)
    ∧ RunnerRate ["windows-latest", "macos-13"] = 0.016
    ∧ (DetectExpensiveOS ⟨[c10job], 30⟩).map (fun r => r.EstimatedMonthlySavings) = [0.72] := by
  refine ⟨?_, by decide, by decide⟩
  have hisMac : (j.Labels.any (fun l => strContains (strToLower l) "macos")) = true := by
    rcases hmac with ⟨l, hl, hcl⟩
    exact List.any_eq_true.2 ⟨l, hl, hcl⟩
  refine ⟨{ RuleID := "expensive-os", Severity := "high",
            EstimatedMonthlySavings := GoDuration.minutes (j.CompletedAt - j.StartedAt)
              * (0.08 - 0.008) * monthlyScale cr.Days,
            Fix := "Job '" ++ j.Name ++ "' runs on macOS for "
              ++ fmtF1 (GoDuration.minutes (j.CompletedAt - j.StartedAt)) ++ " min ($"
              ++ fmtF2 (GoDuration.minutes (j.CompletedAt - j.StartedAt) * 0.08)
              ++ "/run). macOS runners cost 10x Linux. Move non-GUI tests to ubuntu-latest to save ~90%." },
    ?_, rfl, rfl, rfl⟩
  unfold DetectExpensiveOS
  apply List.mem_filterMap.2
  refine ⟨j, hj, ?_⟩
  unfold expensiveOSJob
  simp only [hisMac, Bool.not_true, Bool.false_eq_true, if_false, if_neg hdur]

/-- Witness for C10 at the concrete mixed-label job. -/
theorem c10_expensive_os_witness :
    (∃ r ∈ DetectExpensiveOS ⟨[c10job], 30⟩,
      r.RuleID = "expensive-os" ∧ r.Severity = "high"
      ∧ r.EstimatedMonthlySavings
          = GoDuration.minutes (c10job.CompletedAt - c10job.StartedAt) * (0.08 - 0.008) * monthlyScale 30)
    ∧ RunnerRate ["windows-latest", "macos-13"] = 0.016
    ∧ (DetectExpensiveOS ⟨[c10job], 30⟩).map (fun r => r.EstimatedMonthlySavings) = [0.72] :=
  c10_expensive_os ⟨[c10job], 30⟩ c10job (by decide) ⟨"macos-13", by decide, by decide⟩ (by decide)

end BuildBurn
